import Mathlib

/-!
Verification of the task dependency coordination engine of the `DevAgent`
class (`dummy.py`).  The scheduler state (pending table, completed set,
in-progress set, ready queue, dependency bookkeeping, pause flag) and every
operation the claims touch are embedded as pure Lean functions; Python sets
are represented as duplicate-free lists under `setAdd`/`setDiscard`, Python
dicts as insertion-ordered association lists, and the asyncio
fire-and-forget execution of `_execute_task_with_coordination` as an
explicit transition system (`Ev`, `Step`) in which `asyncio.create_task`
produces a spawned-but-not-yet-started coroutine.
-/

namespace DevSched

/-- Modelled from the spec: the `TaskStatus` enumeration of
`models.enums` (not included in the sources), §3 of the spec. -/
inductive TaskStatus where
  | PENDING
  | IN_PROGRESS
  | COMPLETED
  | FAILED
  | SKIPPED
deriving DecidableEq, Repr

/-- Modelled from the spec: the `Task` entity of `models.task` (not included
in the sources); fields as listed in §3 of the spec.  `estimated_hours` and
`complexity` are opaque metadata the scheduler never interprets. -/
structure Task where
  id : String
  title : String
  description : String
  priority : Int
  status : TaskStatus
  dependencies : List String
  estimated_hours : Nat
  complexity : String
  agent_type : String
deriving DecidableEq, Repr

/-- The plan context record stored by `handle_plan_start`
(`dummy.py:62-67`); `started_at` is kept as an opaque string. -/
structure PlanContext where
  plan_id : String
  title : String
  description : String
  started_at : String
deriving DecidableEq, Repr

/-- Python `set.add`: append the element unless it is already present. -/
def setAdd (s : List String) (x : String) : List String :=
  if x ∈ s then s else s ++ [x]

/-- Python `set.discard` / guarded `set.remove`: drop every occurrence. -/
def setDiscard (s : List String) (x : String) : List String :=
  s.filter (fun y => y ≠ x)

/-- Python `dict` lookup on an insertion-ordered association list. -/
def dictFind {α : Type} : List (String × α) → String → Option α
  | [], _ => none
  | p :: rest, k => if p.1 = k then some p.2 else dictFind rest k

/-- Python `d[k] = v`: replace the value of an existing key in place,
otherwise append the new binding at the end. -/
def dictInsert {α : Type} : List (String × α) → String → α → List (String × α)
  | [], k, v => [(k, v)]
  | p :: rest, k, v => if p.1 = k then (k, v) :: rest else p :: dictInsert rest k v

/-- Python `not s.strip()`: the string is empty or whitespace-only. -/
def isBlank (s : String) : Bool :=
  s.data.all Char.isWhitespace

/-- Outcome of the external text-generation collaborator for one task:
a full accumulated stream, a classified `LLMError`, or an unexpected
exception (`utils.llm_setup.ask_llm_streaming`). -/
inductive LLMResult where
  | ok (content : String)
  | llmError (msg : String)
  | unexpected (msg : String)
deriving DecidableEq, Repr

/-- The notification-sink messages relevant to the claims, in the order
`execute_task` broadcasts them. -/
inductive SinkEvent where
  | taskStatusUpdate (taskId : String) (status : TaskStatus)
  | llmRequest (taskId : String)
  | llmStreamError (taskId : String)
  | llmResponseComplete (taskId : String)
  | fileGenerated (taskId : String) (file : String)
  | writeError (taskId : String)
deriving DecidableEq, Repr

/-- Embedding of `DevAgent._stream_code_from_llm` (`dummy.py:447-516`): broadcast the
request, drive the stream, and either return the accumulated text (after a
completion notice) or broadcast an error message and re-raise. -/
def _stream_code_from_llm (t : Task) (llm : LLMResult) :
    Except String String × List SinkEvent :=
  match llm with
  | .ok content =>
      (.ok content, [.llmRequest t.id, .llmResponseComplete t.id])
  | .llmError m =>
      (.error m, [.llmRequest t.id, .llmStreamError t.id])
  | .unexpected m =>
      (.error m, [.llmRequest t.id, .llmStreamError t.id])

/-- Embedding of `DevAgent.execute_task` (`dummy.py:518-645`), parameterised by the LLM
outcome and by whether the primary artifact write fails.  The function is
total: a raising stream or an empty/whitespace-only buffer
(`dummy.py:574-575`, Python `not code_output.strip()`) ends in a returned
task with status `FAILED`; otherwise the task returns `COMPLETED`.  All
branches broadcast a final `task_status_update` before returning. -/
def execute_task (task : Task) (llm : LLMResult) (writeFails : Bool) :
    Task × List SinkEvent :=
  let t1 := { task with status := TaskStatus.IN_PROGRESS }
  let evs0 := [SinkEvent.taskStatusUpdate task.id TaskStatus.IN_PROGRESS]
  match _stream_code_from_llm t1 llm with
  | (.error _e, evs1) =>
      ({ t1 with status := TaskStatus.FAILED },
       evs0 ++ evs1 ++ [SinkEvent.taskStatusUpdate task.id TaskStatus.FAILED])
  | (.ok content, evs1) =>
      let evsW := if writeFails then [SinkEvent.writeError task.id]
                  else [SinkEvent.fileGenerated task.id "implementation.py"]
      if isBlank content then
        ({ t1 with status := TaskStatus.FAILED },
         evs0 ++ evs1 ++ evsW ++ [SinkEvent.taskStatusUpdate task.id TaskStatus.FAILED])
      else
        ({ t1 with status := TaskStatus.COMPLETED },
         evs0 ++ evs1 ++ evsW ++
           [SinkEvent.fileGenerated task.id "task_metadata.json",
            SinkEvent.taskStatusUpdate task.id TaskStatus.COMPLETED])

/-- The coordination state of `DevAgent.__init__` (`dummy.py:26-45`).
`pending_tasks` is the task table keyed by id; `completed_tasks` and
`in_progress_tasks` are sets of ids; `task_queue` the ready queue;
`waiting_for_dependencies` maps a task id to the outstanding dependency
ids recorded for it. -/
structure DevAgent where
  pending_tasks : List (String × Task)
  completed_tasks : List String
  in_progress_tasks : List String
  task_queue : List Task
  plan_context : Option PlanContext
  dependency_graph : List (String × List String)
  waiting_for_dependencies : List (String × List String)
  is_plan_complete : Bool
  is_processing_active : Bool
  max_concurrent_tasks : Nat
deriving DecidableEq, Repr

/-- The ids currently in the ready queue. -/
def queueIds (a : DevAgent) : List String :=
  a.task_queue.map Task.id

/-- The freshly constructed agent (`DevAgent.__init__`): everything empty,
processing inactive, concurrency limit 2. -/
def devAgentInit : DevAgent where
  pending_tasks := []
  completed_tasks := []
  in_progress_tasks := []
  task_queue := []
  plan_context := none
  dependency_graph := []
  waiting_for_dependencies := []
  is_plan_complete := false
  is_processing_active := true
  max_concurrent_tasks := 2

/-- Embedding of `DevAgent.handle_plan_start` (`dummy.py:47-75`): reset all coordination
state, activate processing and store the plan context. -/
def handle_plan_start (a : DevAgent) (pid ptitle pdesc started : String) : DevAgent :=
  { a with
      pending_tasks := []
      completed_tasks := []
      in_progress_tasks := []
      task_queue := []
      dependency_graph := []
      waiting_for_dependencies := []
      is_plan_complete := false
      is_processing_active := true
      plan_context := some ⟨pid, ptitle, pdesc, started⟩ }

/-- The body of the `while` loop of `_process_ready_tasks`
(`dummy.py:173-180`).  The loop re-checks `len(in_progress_tasks) <
max_concurrent_tasks` and `is_processing_active` before each pop, but both
are unchanged by the loop body: `asyncio.create_task` only schedules
`_execute_task_with_coordination`, whose `in_progress_tasks.add` runs
later.  A popped task whose id is already in progress is dropped.  Returns
the remaining queue and the list of spawned tasks, in pop order. -/
def processLoop (inProg : List String) (maxC : Nat) (active : Bool) :
    List Task → List Task × List Task
  | [] => ([], [])
  | t :: rest =>
    if inProg.length < maxC ∧ active = true then
      let r := processLoop inProg maxC active rest
      (r.1, if t.id ∈ inProg then r.2 else t :: r.2)
    else (t :: rest, [])

/-- Embedding of `DevAgent._process_ready_tasks` (`dummy.py:167-180`). -/
def _process_ready_tasks (a : DevAgent) : DevAgent × List Task :=
  if a.is_processing_active = false then (a, [])
  else
    let r := processLoop a.in_progress_tasks a.max_concurrent_tasks
               a.is_processing_active a.task_queue
    ({ a with task_queue := r.1 }, r.2)

/-- Embedding of `DevAgent._add_to_execution_queue` (`dummy.py:150-165`): append unless
the id is already in the queue (the in-progress set is not consulted),
then immediately try to process ready tasks. -/
def _add_to_execution_queue (a : DevAgent) (task : Task) : DevAgent × List Task :=
  if task.id ∈ queueIds a then (a, [])
  else _process_ready_tasks { a with task_queue := a.task_queue ++ [task] }

/-- Embedding of `DevAgent._evaluate_task_readiness` (`dummy.py:121-148`). -/
def _evaluate_task_readiness (a : DevAgent) (task : Task) : DevAgent × List Task :=
  if task.dependencies = [] then _add_to_execution_queue a task
  else
    let unmet := task.dependencies.filter (fun d => d ∉ a.completed_tasks)
    if unmet = [] then _add_to_execution_queue a task
    else
      ({ a with waiting_for_dependencies :=
          dictInsert a.waiting_for_dependencies task.id unmet }, [])

/-- Embedding of `DevAgent.handle_task_from_pm` (`dummy.py:77-100`): store the task,
record its full declared dependency list in `dependency_graph` and
`waiting_for_dependencies` whenever that list is non-empty (note: before
any comparison with `completed_tasks`), then evaluate readiness. -/
def handle_task_from_pm (a : DevAgent) (task : Task) : DevAgent × List Task :=
  let a1 := { a with pending_tasks := dictInsert a.pending_tasks task.id task }
  let a2 :=
    if task.dependencies ≠ [] then
      { a1 with
          dependency_graph := dictInsert a1.dependency_graph task.id task.dependencies
          waiting_for_dependencies :=
            dictInsert a1.waiting_for_dependencies task.id task.dependencies }
    else a1
  _evaluate_task_readiness a2 task

/-- The loop of `_check_unblocked_tasks` (`dummy.py:266-284`): walk the
waiting map in order, remove the completed id from every waiting set that
contains it, and collect the tasks whose waiting set becomes empty and
that are present in the pending table.  Returns the updated waiting map
and the unblocked tasks in iteration order. -/
def collectUnblocked (cid : String) (pending : List (String × Task)) :
    List (String × List String) → List (String × List String) × List Task
  | [] => ([], [])
  | (tid, deps) :: rest =>
    let r := collectUnblocked cid pending rest
    if cid ∈ deps then
      let deps' := deps.filter (fun d => d ≠ cid)
      if deps' = [] then
        match dictFind pending tid with
        | some t => ((tid, deps') :: r.1, t :: r.2)
        | none => ((tid, deps') :: r.1, r.2)
      else ((tid, deps') :: r.1, r.2)
    else ((tid, deps) :: r.1, r.2)

/-- One step of the enqueue loop at the end of `_check_unblocked_tasks`
(`dummy.py:287-288`), threading the accumulated spawn list. -/
def addStep (p : DevAgent × List Task) (t : Task) : DevAgent × List Task :=
  let r := _add_to_execution_queue p.1 t
  (r.1, p.2 ++ r.2)

/-- Embedding of `DevAgent._check_unblocked_tasks` (`dummy.py:264-288`). -/
def _check_unblocked_tasks (a : DevAgent) (cid : String) : DevAgent × List Task :=
  let r := collectUnblocked cid a.pending_tasks a.waiting_for_dependencies
  r.2.foldl addStep ({ a with waiting_for_dependencies := r.1 }, [])

/-- The dependency tracker's completion operation as invoked on the normal
return path of `_execute_task_with_coordination` (`dummy.py:196-201`):
add the id to the completed set, then run the unblock cascade. -/
def completeTask (a : DevAgent) (tid : String) : DevAgent × List Task :=
  _check_unblocked_tasks
    { a with completed_tasks := setAdd a.completed_tasks tid } tid

/-- The synchronous prefix of `_execute_task_with_coordination`
(`dummy.py:184-187`): return immediately when the id is already in
progress, otherwise record it as in progress. -/
def startExec (a : DevAgent) (t : Task) : DevAgent :=
  if t.id ∈ a.in_progress_tasks then a
  else { a with in_progress_tasks := setAdd a.in_progress_tasks t.id }

/-- How one coordinated execution ends: `execute_task` returns normally
(it catches generation and content errors itself and returns a `FAILED`
task), or an exception escapes `execute_task` (possible only from its
pre-`try` section, e.g. a failing broadcast or directory creation) and is
caught by the wrapper's `except` clause (`dummy.py:203-214`). -/
inductive ExecOutcome where
  | normal (llm : LLMResult) (writeFails : Bool)
  | raised (msg : String)
deriving DecidableEq, Repr

/-- The remainder of `_execute_task_with_coordination` (`dummy.py:189-214`)
after `execute_task` finishes.  On normal return the returned task is
bound (as `completed_task` in the source) but its status is never
inspected: the id is added to `completed_tasks` and the unblock cascade
runs unconditionally.  On a raised exception the id is only discarded
from `in_progress_tasks`. -/
def finishExec (a : DevAgent) (t : Task) : ExecOutcome → DevAgent × List Task
  | .normal llm writeFails =>
      let _completed_task := (execute_task t llm writeFails).1
      let a1 := { a with
          completed_tasks := setAdd a.completed_tasks t.id
          in_progress_tasks := setDiscard a.in_progress_tasks t.id }
      _check_unblocked_tasks a1 t.id
  | .raised _ =>
      ({ a with in_progress_tasks := setDiscard a.in_progress_tasks t.id }, [])

/-- Embedding of `DevAgent.pause_processing` (`dummy.py:306-314`). -/
def pause_processing (a : DevAgent) : DevAgent :=
  { a with is_processing_active := false }

/-- Embedding of `DevAgent.resume_processing` (`dummy.py:316-325`). -/
def resume_processing (a : DevAgent) : DevAgent × List Task :=
  _process_ready_tasks { a with is_processing_active := true }

/-- Embedding of `DevAgent.handle_plan_complete` (`dummy.py:102-119`). -/
def handle_plan_complete (a : DevAgent) : DevAgent × List Task :=
  _process_ready_tasks { a with is_plan_complete := true }

/-- Embedding of `DevAgent.handle_emergency_stop` (`dummy.py:892-907`). -/
def handle_emergency_stop (a : DevAgent) : DevAgent :=
  { a with is_processing_active := false, task_queue := [] }

/-- Embedding of `DevAgent.force_complete_task` (`dummy.py:726-747`): on a known id,
add it to the completed set, discard it from the in-progress set, filter
it out of the queue and run the unblock cascade; the stored task object's
`status` field is never written. -/
def force_complete_task (a : DevAgent) (tid : String) :
    (DevAgent × List Task) × Bool :=
  if (dictFind a.pending_tasks tid).isSome then
    let a1 := { a with
        completed_tasks := setAdd a.completed_tasks tid
        in_progress_tasks := setDiscard a.in_progress_tasks tid
        task_queue := a.task_queue.filter (fun t => t.id ≠ tid) }
    (_check_unblocked_tasks a1 tid, true)
  else ((a, []), false)

/-- Embedding of `DevAgent.reset_task_status` (`dummy.py:749-774`): the removals from
the completed set, the in-progress set and the queue happen before the
pending-table lookup that decides the returned boolean. -/
def reset_task_status (a : DevAgent) (tid : String) :
    (DevAgent × List Task) × Bool :=
  let a1 := { a with
      completed_tasks := setDiscard a.completed_tasks tid
      in_progress_tasks := setDiscard a.in_progress_tasks tid
      task_queue := a.task_queue.filter (fun t => t.id ≠ tid) }
  match dictFind a1.pending_tasks tid with
  | some t => (_evaluate_task_readiness a1 t, true)
  | none => ((a1, []), false)

/-- The reinsertion loop of `handle_priority_change` (`dummy.py:871-878`):
insert before the first queued task of strictly lower priority, appending
when there is none. -/
def insertByPriority (t : Task) : List Task → List Task
  | [] => [t]
  | q :: rest =>
      if t.priority > q.priority then t :: q :: rest
      else q :: insertByPriority t rest

/-- Python `list.remove` of the (aliased, uniquely-identified) task object:
drop the first queue entry with the given id. -/
def removeById (tid : String) : List Task → List Task
  | [] => []
  | t :: rest => if t.id = tid then rest else t :: removeById tid rest

/-- Embedding of `DevAgent.handle_priority_change` (`dummy.py:858-890`): on a known id,
update the stored priority (the queue aliases the pending object in the
source, so the queued copy is updated too); if the task is queued, remove
it and reinsert it by priority. -/
def handle_priority_change (a : DevAgent) (tid : String) (newPriority : Int) :
    DevAgent × Bool :=
  match dictFind a.pending_tasks tid with
  | none => (a, false)
  | some task =>
      let task' := { task with priority := newPriority }
      let a1 := { a with pending_tasks := dictInsert a.pending_tasks tid task' }
      if tid ∈ queueIds a1 then
        ({ a1 with task_queue := insertByPriority task' (removeById tid a1.task_queue) },
         true)
      else (a1, true)

/-- The whole running system: the agent's shared state plus the asyncio
view of the fire-and-forget executions — coroutines created by
`asyncio.create_task` that have not yet started (`spawned`) and those past
the in-progress guard that are currently executing (`running`). -/
structure System where
  agent : DevAgent
  spawned : List Task
  running : List Task
deriving DecidableEq, Repr

/-- The events of the transition system: the coordinator's public entry
points, plus the two scheduling points of one coordinated execution
(`start`: the spawned coroutine begins and passes the guard; `finish`:
`execute_task` completes or raises and the wrapper's tail runs). -/
inductive Ev where
  | receive (t : Task)
  | start (t : Task)
  | finish (t : Task) (o : ExecOutcome)
  | pause
  | resume
  | forceComplete (tid : String)
  | reset (tid : String)
  | prioChange (tid : String) (p : Int)
  | emergencyStop
  | planComplete
deriving DecidableEq, Repr

/-- Whether an event can fire: a coroutine can only start if it was
spawned, and only finish if it is running; every coordinator entry point
may be called at any time. -/
def Ev.enabled : Ev → System → Bool
  | .start t, s => s.spawned.contains t
  | .finish t _, s => s.running.contains t
  | _, _ => true

/-- The effect of an event on the system. -/
def Ev.apply : Ev → System → System
  | .receive t, s =>
      let r := handle_task_from_pm s.agent t
      ⟨r.1, s.spawned ++ r.2, s.running⟩
  | .start t, s =>
      if t.id ∈ s.agent.in_progress_tasks then
        ⟨s.agent, s.spawned.erase t, s.running⟩
      else
        ⟨startExec s.agent t, s.spawned.erase t, s.running ++ [t]⟩
  | .finish t o, s =>
      let r := finishExec s.agent t o
      ⟨r.1, s.spawned ++ r.2, s.running.erase t⟩
  | .pause, s => ⟨pause_processing s.agent, s.spawned, s.running⟩
  | .resume, s =>
      let r := resume_processing s.agent
      ⟨r.1, s.spawned ++ r.2, s.running⟩
  | .forceComplete tid, s =>
      let r := force_complete_task s.agent tid
      ⟨r.1.1, s.spawned ++ r.1.2, s.running⟩
  | .reset tid, s =>
      let r := reset_task_status s.agent tid
      ⟨r.1.1, s.spawned ++ r.1.2, s.running⟩
  | .prioChange tid p, s => ⟨(handle_priority_change s.agent tid p).1, s.spawned, s.running⟩
  | .emergencyStop, s => ⟨handle_emergency_stop s.agent, s.spawned, s.running⟩
  | .planComplete, s =>
      let r := handle_plan_complete s.agent
      ⟨r.1, s.spawned ++ r.2, s.running⟩

/-- One system step: some enabled event fires. -/
def Step (s s' : System) : Prop :=
  ∃ e : Ev, e.enabled s = true ∧ e.apply s = s'

/-- The system right after `handle_plan_start`: empty coordination state,
processing active, default concurrency limit 2, no coroutines. -/
def initSystem : System :=
  ⟨handle_plan_start devAgentInit "plan-1" "Demo plan" "demo" "t0", [], []⟩

/-- States reachable from the freshly started plan. -/
def Reachable (s : System) : Prop :=
  Relation.ReflTransGen Step initSystem s

/-- Run a list of events in order. -/
def runTrace (evs : List Ev) (s : System) : System :=
  evs.foldl (fun s e => e.apply s) s

/-- Check that each event of the trace is enabled when it fires. -/
def traceOK (evs : List Ev) (s : System) : Bool :=
  match evs with
  | [] => true
  | e :: rest => e.enabled s && traceOK rest (e.apply s)

/-- A minimal concrete task for witnesses and counterexamples. -/
def mkTask (tid : String) (deps : List String) : Task :=
  { id := tid, title := tid, description := "", priority := 0,
    status := TaskStatus.PENDING, dependencies := deps,
    estimated_hours := 1, complexity := "low", agent_type := "dev_agent" }

def tA : Task := mkTask "A" []

def tB : Task := mkTask "B" []

def tC : Task := mkTask "C" []

def tBdepA : Task := mkTask "B" ["A"]

def tE : Task := mkTask "E" []

def tT : Task := mkTask "T" []

/-- Three independent tasks arrive in one synchronous stretch (no
broadcast suspension runs the spawned coroutines in between, e.g. no
sink observers are connected); the three created coroutines then start. -/
def c2Trace : List Ev :=
  [Ev.receive tA, Ev.receive tB, Ev.receive tC,
   Ev.start tA, Ev.start tB, Ev.start tC]

def c2Final : System := runTrace c2Trace initSystem

/-- Dependency-free `A` is received and starts; dependent `B` waits on it;
`A`'s generation stream completes with an empty buffer, so `execute_task`
returns `A` with status `FAILED`. -/
def c1Trace : List Ev :=
  [Ev.receive tA, Ev.receive tBdepA, Ev.start tA,
   Ev.finish tA (ExecOutcome.normal (LLMResult.ok "") false)]

def c1Final : System := runTrace c1Trace initSystem

/-- Task `A` completes normally; processing is paused; then `B`, whose only
declared dependency `A` is already completed, is registered. -/
def c3Trace : List Ev :=
  [Ev.receive tA, Ev.start tA,
   Ev.finish tA (ExecOutcome.normal (LLMResult.ok "print(1)") false),
   Ev.pause, Ev.receive tBdepA]

def c3Final : System := runTrace c3Trace initSystem

/-- Task `T` is received, starts executing, and processing is paused:
`T` is in flight, the queue is empty, admissions are inactive. -/
def c4Trace : List Ev := [Ev.receive tT, Ev.start tT, Ev.pause]

def c4Sys : System := runTrace c4Trace initSystem

/-- Task `A` (status `PENDING`) is received and then force-completed. -/
def c8Trace : List Ev := [Ev.receive tA, Ev.forceComplete "A"]

def c8Final : System := runTrace c8Trace initSystem

/-- Processing is paused, then task `E` arrives: it is queued but cannot
be admitted. -/
def c9Trace : List Ev := [Ev.pause, Ev.receive tE]

def c9Sys : System := runTrace c9Trace initSystem

/-- A task id is somewhere on the execution path of an agent/spawn-list
pair: still queued, spawned for execution, or already in flight. -/
def Trich (x : String) (p : DevAgent × List Task) : Prop :=
  x ∈ queueIds p.1 ∨ (∃ u ∈ p.2, u.id = x) ∨ x ∈ p.1.in_progress_tasks

/-- The reinsertion point described by the spec: a task is placed
immediately before the first queued task with strictly lower priority,
and appended at the end when no queued task has strictly lower
priority. -/
def insertBeforeFirstStrictlyLower (t : Task) (q : List Task) : List Task :=
  q.takeWhile (fun u => ¬ u.priority < t.priority)
    ++ t :: q.dropWhile (fun u => ¬ u.priority < t.priority)

def mkPrioTask (tid : String) (prio : Int) : Task :=
  { mkTask tid [] with priority := prio }

def c7P1 : Task := mkPrioTask "P1" 5

def c7P2 : Task := mkPrioTask "P2" 3

def c7T : Task := mkPrioTask "T" 0

def c7Agent : DevAgent :=
  { devAgentInit with
      pending_tasks := [("P1", c7P1), ("P2", c7P2), ("T", c7T)]
      task_queue := [c7P1, c7P2, c7T]
      is_processing_active := false }

def c10State : DevAgent := { devAgentInit with completed_tasks := ["Z"] }

def c2aPaused : DevAgent :=
  { devAgentInit with is_processing_active := false, task_queue := [tE] }

def c2aLimit : DevAgent :=
  { devAgentInit with in_progress_tasks := ["A", "B"], task_queue := [tC] }

def c2aUnder : DevAgent := { devAgentInit with task_queue := [tA, tB, tC] }

def c4aQueued : DevAgent := { devAgentInit with task_queue := [tT] }

/-- The events internal to normal scheduling (as opposed to operator
interventions that deliberately edit the queue). -/
def Ev.isSchedulerEvent : Ev → Bool
  | .receive _ => true
  | .start _ => true
  | .finish _ _ => true
  | .pause => true
  | .planComplete => true
  | _ => false

def c1wAgent : DevAgent :=
  { devAgentInit with
      pending_tasks := [("B", tBdepA)]
      waiting_for_dependencies := [("B", ["A"])] }

def c3wAgent : DevAgent :=
  { devAgentInit with completed_tasks := ["A"], is_processing_active := false }

def c8wAgent : DevAgent :=
  { devAgentInit with
      pending_tasks := [("A", tA), ("B", tBdepA)]
      waiting_for_dependencies := [("B", ["A"])]
      is_processing_active := false }

theorem reachable_runTrace (evs : List Ev) (s : System)
    (hs : Reachable s) (h : traceOK evs s = true) :
    Reachable (runTrace evs s) := by
  induction evs generalizing s with
  | nil => simpa [runTrace] using hs
  | cons e rest ih =>
      simp only [traceOK, Bool.and_eq_true] at h
      have hstep : Step s (e.apply s) := ⟨e, h.1, rfl⟩
      exact ih (e.apply s) (Relation.ReflTransGen.tail hs hstep) h.2

theorem mem_setAdd_self (s : List String) (x : String) : x ∈ setAdd s x := by
  by_cases h : x ∈ s <;> simp [setAdd, h]

theorem setAdd_of_mem {s : List String} {x : String} (h : x ∈ s) :
    setAdd s x = s := by
  simp [setAdd, h]

theorem mem_setAdd_iff {s : List String} {x y : String} :
    y ∈ setAdd s x ↔ y ∈ s ∨ y = x := by
  by_cases h : x ∈ s
  · simp only [setAdd, if_pos h]
    constructor
    · exact Or.inl
    · rintro (hy | rfl)
      · exact hy
      · exact h
  · simp [setAdd, h]

theorem not_mem_setDiscard (s : List String) (x : String) :
    x ∉ setDiscard s x := by
  simp [setDiscard]

theorem mem_setDiscard {s : List String} {x y : String}
    (h : y ∈ setDiscard s x) : y ∈ s := by
  simp only [setDiscard, List.mem_filter] at h
  exact h.1

theorem dictFind_dictInsert_self {α : Type} (d : List (String × α)) (k : String) (v : α) :
    dictFind (dictInsert d k v) k = some v := by
  induction d with
  | nil => simp [dictInsert, dictFind]
  | cons p rest ih =>
      by_cases h : p.1 = k
      · simp [dictInsert, dictFind, h]
      · simp [dictInsert, dictFind, h, ih]

theorem dictFind_mem {α : Type} {d : List (String × α)} {k : String} {v : α}
    (h : dictFind d k = some v) : (k, v) ∈ d := by
  induction d with
  | nil => simp [dictFind] at h
  | cons p rest ih =>
      by_cases hp : p.1 = k
      · rw [dictFind, if_pos hp] at h
        cases Option.some.inj h
        subst hp
        exact List.mem_cons_self _ _
      · rw [dictFind, if_neg hp] at h
        exact List.mem_cons_of_mem _ (ih h)

theorem mem_queueIds {a : DevAgent} {x : String} :
    x ∈ queueIds a ↔ ∃ u ∈ a.task_queue, u.id = x := by
  simp [queueIds, List.mem_map]

theorem processLoop_false (inProg : List String) (maxC : Nat) (q : List Task) :
    processLoop inProg maxC false q = (q, []) := by
  cases q <;> simp [processLoop]

theorem processLoop_flatten (inProg : List String) (maxC : Nat) (q : List Task) :
    processLoop inProg maxC true q =
      if inProg.length < maxC then
        ([], q.filter (fun t => t.id ∉ inProg))
      else (q, []) := by
  induction q with
  | nil => by_cases h : inProg.length < maxC <;> simp [processLoop, h]
  | cons t rest ih =>
      by_cases h : inProg.length < maxC
      · by_cases ht : t.id ∈ inProg <;>
          simp [processLoop, h, ht, ih, List.filter_cons]
      · simp [processLoop, h]

theorem process_ready_inactive {a : DevAgent} (h : a.is_processing_active = false) :
    _process_ready_tasks a = (a, []) := by
  simp [_process_ready_tasks, h]

theorem process_ready_at_limit {a : DevAgent}
    (h : a.max_concurrent_tasks ≤ a.in_progress_tasks.length) :
    _process_ready_tasks a = (a, []) := by
  by_cases ha : a.is_processing_active
  · obtain ⟨p, c, ip, q, pc, dg, w, f1, act, m⟩ := a
    simp only at h ha
    subst ha
    simp [_process_ready_tasks, processLoop_flatten, Nat.not_lt.mpr h]
  · exact process_ready_inactive (by simpa using ha)

theorem process_ready_under {a : DevAgent} (ha : a.is_processing_active = true)
    (h : a.in_progress_tasks.length < a.max_concurrent_tasks) :
    _process_ready_tasks a =
      ({ a with task_queue := [] },
       a.task_queue.filter (fun t => t.id ∉ a.in_progress_tasks)) := by
  simp [_process_ready_tasks, ha, processLoop_flatten, h]

theorem process_ready_proj (a : DevAgent) :
    (_process_ready_tasks a).1.pending_tasks = a.pending_tasks ∧
    (_process_ready_tasks a).1.completed_tasks = a.completed_tasks ∧
    (_process_ready_tasks a).1.in_progress_tasks = a.in_progress_tasks ∧
    (_process_ready_tasks a).1.waiting_for_dependencies = a.waiting_for_dependencies ∧
    (_process_ready_tasks a).1.is_processing_active = a.is_processing_active ∧
    (_process_ready_tasks a).1.max_concurrent_tasks = a.max_concurrent_tasks := by
  unfold _process_ready_tasks
  split <;> exact ⟨rfl, rfl, rfl, rfl, rfl, rfl⟩

theorem process_ready_queue_sub {a : DevAgent} {x : String}
    (h : x ∈ queueIds (_process_ready_tasks a).1) : x ∈ queueIds a := by
  by_cases ha : a.is_processing_active
  · by_cases hl : a.in_progress_tasks.length < a.max_concurrent_tasks
    · rw [process_ready_under (by simpa using ha) hl] at h
      simp [queueIds] at h
    · rw [process_ready_at_limit (Nat.not_lt.mp hl)] at h
      exact h
  · rw [process_ready_inactive (by simpa using ha)] at h
    exact h

theorem add_proj (a : DevAgent) (t : Task) :
    (_add_to_execution_queue a t).1.pending_tasks = a.pending_tasks ∧
    (_add_to_execution_queue a t).1.completed_tasks = a.completed_tasks ∧
    (_add_to_execution_queue a t).1.in_progress_tasks = a.in_progress_tasks ∧
    (_add_to_execution_queue a t).1.waiting_for_dependencies = a.waiting_for_dependencies ∧
    (_add_to_execution_queue a t).1.is_processing_active = a.is_processing_active ∧
    (_add_to_execution_queue a t).1.max_concurrent_tasks = a.max_concurrent_tasks := by
  unfold _add_to_execution_queue
  split
  · exact ⟨rfl, rfl, rfl, rfl, rfl, rfl⟩
  · exact process_ready_proj _

theorem add_queue_mem {a : DevAgent} {t : Task} {x : String}
    (h : x ∈ queueIds (_add_to_execution_queue a t).1) :
    x ∈ queueIds a ∨ x = t.id := by
  unfold _add_to_execution_queue at h
  split at h
  · exact Or.inl h
  · have := process_ready_queue_sub h
    simp [queueIds] at this
    rcases this with h' | h'
    · exact Or.inl (by simpa [queueIds] using h')
    · exact Or.inr h'

theorem addStep_proj (p : DevAgent × List Task) (t : Task) :
    (addStep p t).1.pending_tasks = p.1.pending_tasks ∧
    (addStep p t).1.completed_tasks = p.1.completed_tasks ∧
    (addStep p t).1.in_progress_tasks = p.1.in_progress_tasks ∧
    (addStep p t).1.waiting_for_dependencies = p.1.waiting_for_dependencies ∧
    (addStep p t).1.is_processing_active = p.1.is_processing_active ∧
    (addStep p t).1.max_concurrent_tasks = p.1.max_concurrent_tasks :=
  add_proj p.1 t

theorem foldl_addStep_proj (l : List Task) (p : DevAgent × List Task) :
    (l.foldl addStep p).1.pending_tasks = p.1.pending_tasks ∧
    (l.foldl addStep p).1.completed_tasks = p.1.completed_tasks ∧
    (l.foldl addStep p).1.in_progress_tasks = p.1.in_progress_tasks ∧
    (l.foldl addStep p).1.waiting_for_dependencies = p.1.waiting_for_dependencies ∧
    (l.foldl addStep p).1.is_processing_active = p.1.is_processing_active ∧
    (l.foldl addStep p).1.max_concurrent_tasks = p.1.max_concurrent_tasks := by
  induction l generalizing p with
  | nil => exact ⟨rfl, rfl, rfl, rfl, rfl, rfl⟩
  | cons t rest ih =>
      have h1 := addStep_proj p t
      have h2 := ih (addStep p t)
      simp only [List.foldl_cons]
      exact ⟨h2.1.trans h1.1, h2.2.1.trans h1.2.1, h2.2.2.1.trans h1.2.2.1,
             h2.2.2.2.1.trans h1.2.2.2.1, h2.2.2.2.2.1.trans h1.2.2.2.2.1,
             h2.2.2.2.2.2.trans h1.2.2.2.2.2⟩

theorem check_unblocked_proj (a : DevAgent) (cid : String) :
    (_check_unblocked_tasks a cid).1.pending_tasks = a.pending_tasks ∧
    (_check_unblocked_tasks a cid).1.completed_tasks = a.completed_tasks ∧
    (_check_unblocked_tasks a cid).1.in_progress_tasks = a.in_progress_tasks ∧
    (_check_unblocked_tasks a cid).1.waiting_for_dependencies
      = (collectUnblocked cid a.pending_tasks a.waiting_for_dependencies).1 ∧
    (_check_unblocked_tasks a cid).1.is_processing_active = a.is_processing_active ∧
    (_check_unblocked_tasks a cid).1.max_concurrent_tasks = a.max_concurrent_tasks := by
  have h := foldl_addStep_proj
    (collectUnblocked cid a.pending_tasks a.waiting_for_dependencies).2
    ({ a with waiting_for_dependencies :=
        (collectUnblocked cid a.pending_tasks a.waiting_for_dependencies).1 }, [])
  exact h

theorem collect_cons_not_mem {cid : String} {pending : List (String × Task)}
    {tid : String} {deps : List String} {rest : List (String × List String)}
    (hc : cid ∉ deps) :
    collectUnblocked cid pending ((tid, deps) :: rest)
      = ((tid, deps) :: (collectUnblocked cid pending rest).1,
         (collectUnblocked cid pending rest).2) := by
  conv_lhs => rw [collectUnblocked]
  rw [if_neg hc]

theorem collect_cons_mem_ne {cid : String} {pending : List (String × Task)}
    {tid : String} {deps : List String} {rest : List (String × List String)}
    (hc : cid ∈ deps) (hf : deps.filter (fun d => d ≠ cid) ≠ []) :
    collectUnblocked cid pending ((tid, deps) :: rest)
      = ((tid, deps.filter (fun d => d ≠ cid)) :: (collectUnblocked cid pending rest).1,
         (collectUnblocked cid pending rest).2) := by
  conv_lhs => rw [collectUnblocked]
  rw [if_pos hc]
  dsimp only
  rw [if_neg hf]

theorem collect_cons_unblocked {cid : String} {pending : List (String × Task)}
    {tid : String} {deps : List String} {rest : List (String × List String)}
    (hc : cid ∈ deps) (hf : deps.filter (fun d => d ≠ cid) = []) :
    collectUnblocked cid pending ((tid, deps) :: rest)
      = ((tid, deps.filter (fun d => d ≠ cid)) :: (collectUnblocked cid pending rest).1,
         (dictFind pending tid).toList ++ (collectUnblocked cid pending rest).2) := by
  conv_lhs => rw [collectUnblocked]
  rw [if_pos hc]
  dsimp only
  rw [if_pos hf]
  rcases hfind : dictFind pending tid with _ | t <;> rfl

theorem collect_waiting_not_mem (cid : String) (pending : List (String × Task))
    (w : List (String × List String)) :
    ∀ p ∈ (collectUnblocked cid pending w).1, cid ∉ p.2 := by
  induction w with
  | nil => simp [collectUnblocked]
  | cons hd rest ih =>
      obtain ⟨tid, deps⟩ := hd
      intro p hp
      by_cases hc : cid ∈ deps
      · by_cases hf : deps.filter (fun d => d ≠ cid) = []
        · rw [collect_cons_unblocked hc hf] at hp
          rcases List.mem_cons.mp hp with rfl | hp'
          · simp
          · exact ih p hp'
        · rw [collect_cons_mem_ne hc hf] at hp
          rcases List.mem_cons.mp hp with rfl | hp'
          · simp
          · exact ih p hp'
      · rw [collect_cons_not_mem hc] at hp
        rcases List.mem_cons.mp hp with rfl | hp'
        · exact hc
        · exact ih p hp'

theorem collect_of_not_mem {cid : String} {pending : List (String × Task)}
    {w : List (String × List String)} (h : ∀ p ∈ w, cid ∉ p.2) :
    collectUnblocked cid pending w = (w, []) := by
  induction w with
  | nil => simp [collectUnblocked]
  | cons hd rest ih =>
      obtain ⟨tid, deps⟩ := hd
      have hc : cid ∉ deps := h (tid, deps) (List.mem_cons_self _ _)
      have hrest := ih (fun p hp => h p (List.mem_cons_of_mem _ hp))
      rw [collect_cons_not_mem hc, hrest]

theorem collect_mem_unblocked {cid : String} {pending : List (String × Task)}
    {w : List (String × List String)} {did : String} {deps : List String} {u : Task}
    (hw : (did, deps) ∈ w) (hc : cid ∈ deps)
    (hf : deps.filter (fun d => d ≠ cid) = [])
    (hp : dictFind pending did = some u) :
    u ∈ (collectUnblocked cid pending w).2 := by
  induction w with
  | nil => cases hw
  | cons hd rest ih =>
      obtain ⟨tid, deps'⟩ := hd
      rcases List.mem_cons.mp hw with heq | hw'
      · injection heq with h1 h2
        subst h1; subst h2
        rw [collect_cons_unblocked hc hf, hp]
        exact List.mem_append_left _ (List.mem_singleton.mpr rfl)
      · by_cases hc' : cid ∈ deps'
        · by_cases hf' : deps'.filter (fun d => d ≠ cid) = []
          · rw [collect_cons_unblocked hc' hf']
            exact List.mem_append_right _ (ih hw')
          · rw [collect_cons_mem_ne hc' hf']
            exact ih hw'
        · rw [collect_cons_not_mem hc']
          exact ih hw'

theorem collect_unblocked_sub {cid : String} {pending : List (String × Task)}
    {w : List (String × List String)} {u : Task}
    (h : u ∈ (collectUnblocked cid pending w).2) :
    ∃ did deps, (did, deps) ∈ w ∧ cid ∈ deps ∧ dictFind pending did = some u := by
  induction w with
  | nil => simp [collectUnblocked] at h
  | cons hd rest ih =>
      obtain ⟨tid, deps⟩ := hd
      by_cases hc : cid ∈ deps
      · by_cases hf : deps.filter (fun d => d ≠ cid) = []
        · rw [collect_cons_unblocked hc hf] at h
          rcases List.mem_append.mp h with h' | h'
          · rcases hfind : dictFind pending tid with _ | t
            · rw [hfind] at h'; cases h'
            · rw [hfind] at h'
              simp [Option.toList] at h'
              exact ⟨tid, deps, List.mem_cons_self _ _, hc, h' ▸ hfind⟩
          · obtain ⟨did, deps', hmem, hc', hfind⟩ := ih h'
            exact ⟨did, deps', List.mem_cons_of_mem _ hmem, hc', hfind⟩
        · rw [collect_cons_mem_ne hc hf] at h
          obtain ⟨did, deps', hmem, hc', hfind⟩ := ih h
          exact ⟨did, deps', List.mem_cons_of_mem _ hmem, hc', hfind⟩
      · rw [collect_cons_not_mem hc] at h
        obtain ⟨did, deps', hmem, hc', hfind⟩ := ih h
        exact ⟨did, deps', List.mem_cons_of_mem _ hmem, hc', hfind⟩

theorem process_ready_trich {a : DevAgent} {x : String} (h : x ∈ queueIds a) :
    Trich x (_process_ready_tasks a) := by
  by_cases ha : a.is_processing_active
  · by_cases hl : a.in_progress_tasks.length < a.max_concurrent_tasks
    · rw [process_ready_under (by simpa using ha) hl]
      by_cases hx : x ∈ a.in_progress_tasks
      · exact Or.inr (Or.inr hx)
      · refine Or.inr (Or.inl ?_)
        obtain ⟨u, hu, rfl⟩ := mem_queueIds.mp h
        exact ⟨u, List.mem_filter.mpr ⟨hu, by simpa using hx⟩, rfl⟩
    · rw [process_ready_at_limit (Nat.not_lt.mp hl)]; exact Or.inl h
  · rw [process_ready_inactive (by simpa using ha)]; exact Or.inl h

theorem add_trich_mono {a : DevAgent} {t : Task} {x : String} (h : x ∈ queueIds a) :
    Trich x (_add_to_execution_queue a t) := by
  unfold _add_to_execution_queue
  split
  · exact Or.inl h
  · apply process_ready_trich
    simp only [queueIds, List.map_append, List.mem_append]
    exact Or.inl h

theorem add_trich_self (a : DevAgent) (t : Task) :
    Trich t.id (_add_to_execution_queue a t) := by
  unfold _add_to_execution_queue
  split
  · next hmem => exact Or.inl hmem
  · apply process_ready_trich
    simp [queueIds]

theorem addStep_trich_self (p : DevAgent × List Task) (t : Task) :
    Trich t.id (addStep p t) := by
  rcases add_trich_self p.1 t with h | ⟨u, hu, hid⟩ | h
  · exact Or.inl h
  · exact Or.inr (Or.inl ⟨u, List.mem_append_right _ hu, hid⟩)
  · exact Or.inr (Or.inr h)

theorem addStep_trich_pres {p : DevAgent × List Task} {t : Task} {x : String}
    (h : Trich x p) : Trich x (addStep p t) := by
  rcases h with h | ⟨u, hu, hid⟩ | h
  · rcases add_trich_mono (t := t) h with h2 | ⟨u, hu, hid⟩ | h2
    · exact Or.inl h2
    · exact Or.inr (Or.inl ⟨u, List.mem_append_right _ hu, hid⟩)
    · exact Or.inr (Or.inr h2)
  · exact Or.inr (Or.inl ⟨u, List.mem_append_left _ hu, hid⟩)
  · exact Or.inr (Or.inr (((addStep_proj p t).2.2.1).symm ▸ h))

theorem foldl_addStep_trich_pres {x : String} (l : List Task)
    (p : DevAgent × List Task) (h : Trich x p) : Trich x (l.foldl addStep p) := by
  induction l generalizing p with
  | nil => exact h
  | cons t rest ih => exact ih (addStep p t) (addStep_trich_pres h)

theorem foldl_addStep_trich_mem {l : List Task} {p : DevAgent × List Task}
    {u : Task} (h : u ∈ l) : Trich u.id (l.foldl addStep p) := by
  induction l generalizing p with
  | nil => cases h
  | cons t rest ih =>
      rcases List.mem_cons.mp h with rfl | h'
      · exact foldl_addStep_trich_pres rest _ (addStep_trich_self p u)
      · exact ih h'

theorem check_unblocked_trich {a : DevAgent} {cid did : String}
    {deps : List String} {u : Task}
    (hw : (did, deps) ∈ a.waiting_for_dependencies) (hc : cid ∈ deps)
    (hf : deps.filter (fun d => d ≠ cid) = [])
    (hp : dictFind a.pending_tasks did = some u) :
    Trich u.id (_check_unblocked_tasks a cid) := by
  have hmem := collect_mem_unblocked hw hc hf hp
  exact foldl_addStep_trich_mem hmem

theorem add_inactive {a : DevAgent} {t : Task} (h : a.is_processing_active = false) :
    (_add_to_execution_queue a t).2 = [] ∧
    ((_add_to_execution_queue a t).1 = a ∨
     (_add_to_execution_queue a t).1 = { a with task_queue := a.task_queue ++ [t] }) := by
  unfold _add_to_execution_queue
  split
  · exact ⟨rfl, Or.inl rfl⟩
  · rw [process_ready_inactive (a := { a with task_queue := a.task_queue ++ [t] }) h]
    exact ⟨rfl, Or.inr rfl⟩

theorem add_inactive_full {a : DevAgent} {t : Task}
    (h : a.is_processing_active = false) :
    (_add_to_execution_queue a t).2 = [] ∧
    (_add_to_execution_queue a t).1.in_progress_tasks = a.in_progress_tasks ∧
    (∀ x, x ∈ queueIds a → x ∈ queueIds (_add_to_execution_queue a t).1) := by
  obtain ⟨hsp, hor⟩ := add_inactive (t := t) h
  refine ⟨hsp, (add_proj a t).2.2.1, fun x hx => ?_⟩
  rcases hor with he | he <;> rw [he]
  · exact hx
  · show x ∈ List.map Task.id (a.task_queue ++ [t])
    rw [List.map_append]
    exact List.mem_append_left _ hx

theorem foldl_addStep_inactive (l : List Task) (p : DevAgent × List Task)
    (h : p.1.is_processing_active = false) :
    (l.foldl addStep p).2 = p.2 ∧
    (l.foldl addStep p).1.in_progress_tasks = p.1.in_progress_tasks ∧
    (l.foldl addStep p).1.is_processing_active = false ∧
    (∀ x, x ∈ queueIds p.1 → x ∈ queueIds (l.foldl addStep p).1) := by
  induction l generalizing p with
  | nil => exact ⟨rfl, rfl, h, fun x hx => hx⟩
  | cons t rest ih =>
      obtain ⟨hsp, hip, hq⟩ := add_inactive_full (t := t) h
      have hact : (addStep p t).1.is_processing_active = false := by
        rw [(addStep_proj p t).2.2.2.2.1]; exact h
      have h2 := ih (addStep p t) hact
      refine ⟨?_, ?_, h2.2.2.1, ?_⟩
      · rw [List.foldl_cons, h2.1]
        show p.2 ++ (_add_to_execution_queue p.1 t).2 = p.2
        rw [hsp, List.append_nil]
      · rw [List.foldl_cons, h2.2.1]
        exact hip
      · intro x hx
        rw [List.foldl_cons]
        exact h2.2.2.2 x (hq x hx)

theorem check_unblocked_inactive {a : DevAgent} {cid : String}
    (h : a.is_processing_active = false) :
    (_check_unblocked_tasks a cid).2 = [] ∧
    (_check_unblocked_tasks a cid).1.in_progress_tasks = a.in_progress_tasks ∧
    (_check_unblocked_tasks a cid).1.is_processing_active = false ∧
    (∀ x, x ∈ queueIds a → x ∈ queueIds (_check_unblocked_tasks a cid).1) :=
  foldl_addStep_inactive
    (collectUnblocked cid a.pending_tasks a.waiting_for_dependencies).2
    ({ a with waiting_for_dependencies :=
        (collectUnblocked cid a.pending_tasks a.waiting_for_dependencies).1 }, []) h

theorem evaluate_inactive {a : DevAgent} {t : Task}
    (h : a.is_processing_active = false) :
    (_evaluate_task_readiness a t).2 = [] ∧
    (_evaluate_task_readiness a t).1.in_progress_tasks = a.in_progress_tasks ∧
    (∀ x, x ∈ queueIds a → x ∈ queueIds (_evaluate_task_readiness a t).1) := by
  unfold _evaluate_task_readiness
  split
  · exact add_inactive_full h
  · dsimp only
    split
    · exact add_inactive_full h
    · exact ⟨rfl, rfl, fun x hx => hx⟩

theorem handle_task_inactive {a : DevAgent} {t : Task}
    (h : a.is_processing_active = false) :
    (handle_task_from_pm a t).2 = [] ∧
    (handle_task_from_pm a t).1.in_progress_tasks = a.in_progress_tasks ∧
    (∀ x, x ∈ queueIds a → x ∈ queueIds (handle_task_from_pm a t).1) := by
  unfold handle_task_from_pm
  split
  · exact evaluate_inactive h
  · exact evaluate_inactive h

theorem add_not_mem_queue {a : DevAgent} {t : Task} {x : String}
    (h : x ∉ queueIds a) (ht : t.id ≠ x) :
    x ∉ queueIds (_add_to_execution_queue a t).1 := by
  intro hx
  rcases add_queue_mem hx with h' | h'
  · exact h h'
  · exact ht h'.symm

theorem foldl_addStep_not_mem_queue {x : String} (l : List Task)
    (p : DevAgent × List Task)
    (h : x ∉ queueIds p.1) (hl : ∀ u ∈ l, u.id ≠ x) :
    x ∉ queueIds (l.foldl addStep p).1 := by
  induction l generalizing p with
  | nil => exact h
  | cons t rest ih =>
      rw [List.foldl_cons]
      exact ih (addStep p t)
        (add_not_mem_queue h (hl t (List.mem_cons_self _ _)))
        (fun u hu => hl u (List.mem_cons_of_mem _ hu))

theorem check_unblocked_second_call (a : DevAgent) (cid : String)
    (hw : ∀ p ∈ a.waiting_for_dependencies, cid ∉ p.2) :
    _check_unblocked_tasks a cid = (a, []) := by
  unfold _check_unblocked_tasks
  rw [collect_of_not_mem hw]
  rfl

/-- C5: completing the same task id twice is idempotent: for every
scheduler state, the second `complete(A)` (completed-set insertion plus
unblock cascade, `dummy.py:196-201` and `dummy.py:264-288`) returns the
state produced by the first call unchanged and spawns no execution — no
waiting set shrinks further, no task is enqueued, the completed set is
unchanged. -/
theorem C5_complete_idempotent : ∀ (a : DevAgent) (tid : String),
    completeTask (completeTask a tid).1 tid = ((completeTask a tid).1, []) := by
  intro a tid
  have hproj := check_unblocked_proj
    { a with completed_tasks := setAdd a.completed_tasks tid } tid
  have hcomp : (completeTask a tid).1.completed_tasks = setAdd a.completed_tasks tid :=
    hproj.2.1
  have hw2 : (completeTask a tid).1.waiting_for_dependencies
      = (collectUnblocked tid a.pending_tasks a.waiting_for_dependencies).1 :=
    hproj.2.2.2.1
  have hwait : ∀ p ∈ (completeTask a tid).1.waiting_for_dependencies, tid ∉ p.2 := by
    rw [hw2]
    exact collect_waiting_not_mem tid a.pending_tasks a.waiting_for_dependencies
  have hmem : tid ∈ (completeTask a tid).1.completed_tasks := by
    rw [hcomp]
    exact mem_setAdd_self _ _
  show _check_unblocked_tasks
      { (completeTask a tid).1 with
          completed_tasks := setAdd (completeTask a tid).1.completed_tasks tid } tid
    = ((completeTask a tid).1, [])
  rw [setAdd_of_mem hmem]
  exact check_unblocked_second_call (completeTask a tid).1 tid hwait

theorem insertByPriority_eq_spec (t : Task) (q : List Task) :
    insertByPriority t q = insertBeforeFirstStrictlyLower t q := by
  induction q with
  | nil => rfl
  | cons u rest ih =>
      by_cases h : u.priority < t.priority
      · rw [insertByPriority, if_pos h]
        simp [insertBeforeFirstStrictlyLower, List.takeWhile_cons, List.dropWhile_cons, h]
      · have h' : t.priority ≤ u.priority := not_lt.mp h
        rw [insertByPriority, if_neg h, ih]
        simp [insertBeforeFirstStrictlyLower, List.takeWhile_cons, List.dropWhile_cons, h']

/-- C7: `handle_priority_change` on a task known to the pending table and
currently in the ready queue returns `True` and reinserts the task
(with its updated priority) immediately before the first queued task with
strictly lower priority, appending at the end when there is none; equal
priorities therefore keep their original relative order. -/
theorem C7_priority_reinsert (a : DevAgent) (tid : String) (p : Int) (task : Task)
    (hp : dictFind a.pending_tasks tid = some task)
    (hq : tid ∈ queueIds a) :
    (handle_priority_change a tid p).2 = true ∧
    (handle_priority_change a tid p).1.task_queue
      = insertBeforeFirstStrictlyLower { task with priority := p }
          (removeById tid a.task_queue) := by
  unfold handle_priority_change
  rw [hp]
  dsimp only
  have hq' : tid ∈ queueIds
      { a with pending_tasks := dictInsert a.pending_tasks tid { task with priority := p } } :=
    hq
  rw [if_pos hq']
  exact ⟨rfl, insertByPriority_eq_spec _ _⟩

theorem C7_witness :
    ((handle_priority_change c7Agent "T" 4).2 = true ∧
     (handle_priority_change c7Agent "T" 4).1.task_queue
       = insertBeforeFirstStrictlyLower { c7T with priority := 4 }
           (removeById "T" c7Agent.task_queue)) ∧
    (handle_priority_change c7Agent "T" 4).1.task_queue
      = [c7P1, { c7T with priority := 4 }, c7P2] :=
  ⟨C7_priority_reinsert c7Agent "T" 4 c7T (by decide) (by decide), by decide⟩

/-- C6: `execute_task` is total on the modelled failure modes — a
classified generation error, an unexpected stream error, a failing write
and the empty-content check all still end in a returned task whose status
is terminal (`COMPLETED` or `FAILED`); and whenever the accumulated
buffer is empty or whitespace-only the returned status is `FAILED` and a
`task_status_update(FAILED)` notification is broadcast. -/
theorem C6_executor_total :
    (∀ (t : Task) (llm : LLMResult) (wf : Bool),
        (execute_task t llm wf).1.status = TaskStatus.COMPLETED ∨
        (execute_task t llm wf).1.status = TaskStatus.FAILED) ∧
    (∀ (t : Task) (s : String) (wf : Bool), isBlank s = true →
        (execute_task t (LLMResult.ok s) wf).1.status = TaskStatus.FAILED ∧
        SinkEvent.taskStatusUpdate t.id TaskStatus.FAILED
          ∈ (execute_task t (LLMResult.ok s) wf).2) := by
  constructor
  · intro t llm wf
    cases llm with
    | ok s =>
        by_cases hb : isBlank s
        · right; simp [execute_task, _stream_code_from_llm, hb]
        · left; simp [execute_task, _stream_code_from_llm, hb]
    | llmError m => right; simp [execute_task, _stream_code_from_llm]
    | unexpected m => right; simp [execute_task, _stream_code_from_llm]
  · intro t s wf hb
    constructor
    · simp [execute_task, _stream_code_from_llm, hb]
    · simp [execute_task, _stream_code_from_llm, hb]

theorem C6_witness :
    (execute_task tT (LLMResult.ok "  ") false).1.status = TaskStatus.FAILED ∧
    SinkEvent.taskStatusUpdate tT.id TaskStatus.FAILED
      ∈ (execute_task tT (LLMResult.ok "  ") false).2 :=
  C6_executor_total.2 tT "  " false (by decide)

/-- C10: for an id absent from the pending table, `reset_task_status`
returns `False` but has already removed the id from the completed set and
the in-progress set and filtered it out of the ready queue: the not-found
result is not atomic. -/
theorem C10_reset_not_found (a : DevAgent) (tid : String)
    (h : dictFind a.pending_tasks tid = none) :
    reset_task_status a tid =
      (({ a with
            completed_tasks := setDiscard a.completed_tasks tid
            in_progress_tasks := setDiscard a.in_progress_tasks tid
            task_queue := a.task_queue.filter (fun t => t.id ≠ tid) }, []), false) := by
  unfold reset_task_status
  dsimp only
  split
  · next t heq =>
      have heq' : dictFind a.pending_tasks tid = some t := heq
      rw [h] at heq'
      cases heq'
  · rfl

theorem C10_witness :
    reset_task_status c10State "Z" =
      (({ c10State with
            completed_tasks := setDiscard c10State.completed_tasks "Z"
            in_progress_tasks := setDiscard c10State.in_progress_tasks "Z"
            task_queue := c10State.task_queue.filter (fun t => t.id ≠ "Z") }, []), false) ∧
    (reset_task_status c10State "Z").1.1.completed_tasks = [] ∧
    "Z" ∈ c10State.completed_tasks :=
  ⟨C10_reset_not_found c10State "Z" (by decide), by decide, by decide⟩

/-- C2 (amended): the admission pass never pops a task while paused or
while the in-flight count is at or above the limit, but a single pass
below the limit spawns every queued task whose id is not in flight — the
number of spawned executions is bounded by the queue length, not by
`max_concurrent_tasks`, because the in-flight set only grows when a
spawned coroutine later starts. -/
theorem C2_amended_admission :
    (∀ a : DevAgent, a.is_processing_active = false →
        _process_ready_tasks a = (a, [])) ∧
    (∀ a : DevAgent, a.max_concurrent_tasks ≤ a.in_progress_tasks.length →
        _process_ready_tasks a = (a, [])) ∧
    (∀ a : DevAgent, a.is_processing_active = true →
        a.in_progress_tasks.length < a.max_concurrent_tasks →
        (_process_ready_tasks a).1.task_queue = [] ∧
        (_process_ready_tasks a).2
          = a.task_queue.filter (fun t => t.id ∉ a.in_progress_tasks)) := by
  refine ⟨fun a h => process_ready_inactive h,
          fun a h => process_ready_at_limit h,
          fun a ha hl => ?_⟩
  rw [process_ready_under ha hl]
  exact ⟨rfl, rfl⟩

theorem C2_witness :
    _process_ready_tasks c2aPaused = (c2aPaused, []) ∧
    _process_ready_tasks c2aLimit = (c2aLimit, []) ∧
    ((_process_ready_tasks c2aUnder).1.task_queue = [] ∧
     (_process_ready_tasks c2aUnder).2
       = c2aUnder.task_queue.filter (fun t => t.id ∉ c2aUnder.in_progress_tasks)) :=
  ⟨C2_amended_admission.1 c2aPaused (by decide),
   C2_amended_admission.2.1 c2aLimit (by decide),
   C2_amended_admission.2.2 c2aUnder (by decide) (by decide)⟩

/-- C4 (amended): `_add_to_execution_queue` appends a task iff its id is
not already in the ready queue; the in-flight set is not consulted, so a
task whose id is in flight but not queued is still appended (visible
whenever the admission pass cannot immediately pop it, e.g. while
paused). -/
theorem C4_amended_guard :
    (∀ (a : DevAgent) (t : Task), t.id ∈ queueIds a →
        _add_to_execution_queue a t = (a, [])) ∧
    (∀ (a : DevAgent) (t : Task), t.id ∉ queueIds a →
        a.is_processing_active = false →
        (_add_to_execution_queue a t).1.task_queue = a.task_queue ++ [t] ∧
        (_add_to_execution_queue a t).2 = []) := by
  constructor
  · intro a t h
    unfold _add_to_execution_queue
    rw [if_pos h]
  · intro a t h ha
    unfold _add_to_execution_queue
    rw [if_neg h,
        process_ready_inactive (a := { a with task_queue := a.task_queue ++ [t] }) ha]
    exact ⟨rfl, rfl⟩

theorem C4_witness :
    _add_to_execution_queue c4aQueued tT = (c4aQueued, []) ∧
    ((_add_to_execution_queue c4Sys.agent tT).1.task_queue
        = c4Sys.agent.task_queue ++ [tT] ∧
     (_add_to_execution_queue c4Sys.agent tT).2 = []) :=
  ⟨C4_amended_guard.1 c4aQueued tT (by decide),
   C4_amended_guard.2 c4Sys.agent tT (by decide) (by decide)⟩

/-- C1 counterexample: in a reachable run, task `A`'s execution finishes
with terminal status `FAILED` (empty generation buffer), yet the
coordinator marks `A` completed and the dependent `B` — whose only
dependency is `A` — is enqueued and spawned. -/
theorem C1_counterexample :
    Reachable c1Final ∧
    (execute_task tA (LLMResult.ok "") false).1.status = TaskStatus.FAILED ∧
    "A" ∈ c1Final.agent.completed_tasks ∧
    tBdepA ∈ c1Final.spawned :=
  ⟨reachable_runTrace c1Trace initSystem Relation.ReflTransGen.refl (by decide),
   by decide, by decide, by decide⟩

/-- C2 counterexample: a reachable state in which three tasks are in
flight with `max_concurrent_tasks = 2`: the admission loop spawned all
three while the in-progress set was still empty. -/
theorem C2_counterexample :
    Reachable c2Final ∧
    c2Final.agent.max_concurrent_tasks < c2Final.agent.in_progress_tasks.length :=
  ⟨reachable_runTrace c2Trace initSystem Relation.ReflTransGen.refl (by decide),
   by decide⟩

/-- C3 counterexample: a reachable state in which task `B` sits in the
ready queue while the waiting map still records the non-empty entry
`B ↦ {A}` — registering a task whose declared dependencies are all
completed breaks the mutual-exclusion invariant. -/
theorem C3_counterexample :
    Reachable c3Final ∧
    "B" ∈ queueIds c3Final.agent ∧
    dictFind c3Final.agent.waiting_for_dependencies "B" = some ["A"] :=
  ⟨reachable_runTrace c3Trace initSystem Relation.ReflTransGen.refl (by decide),
   by decide, by decide⟩

/-- C4 counterexample: a reachable state with `T` in flight and absent
from the queue, where enqueueing `T` changes the ready queue — the
claimed in-flight half of the guard does not exist. -/
theorem C4_counterexample :
    Reachable c4Sys ∧
    "T" ∈ c4Sys.agent.in_progress_tasks ∧
    (_add_to_execution_queue c4Sys.agent tT).1.task_queue ≠ c4Sys.agent.task_queue :=
  ⟨reachable_runTrace c4Trace initSystem Relation.ReflTransGen.refl (by decide),
   by decide, by decide⟩

/-- C8 counterexample: after a reachable `force_complete_task` on task
`A`, the id is in the completed set but the pending table still records
`A` with status `PENDING` — `force_complete_task` never writes the task
object's `status` field. -/
theorem C8_counterexample :
    Reachable c8Final ∧
    "A" ∈ c8Final.agent.completed_tasks ∧
    (dictFind c8Final.agent.pending_tasks "A").map Task.status
      = some TaskStatus.PENDING :=
  ⟨reachable_runTrace c8Trace initSystem Relation.ReflTransGen.refl (by decide),
   by decide, by decide⟩

theorem startExec_queue (a : DevAgent) (t : Task) :
    (startExec a t).task_queue = a.task_queue := by
  unfold startExec
  split <;> rfl

/-- C9: while `is_processing_active = false`, no scheduler event creates
a new spawned execution (no admission from the ready queue), every id in
the ready queue stays there, and the in-flight set only gains ids of
executions spawned before the pause; and a task in the queue is spawned
by `resume_processing` whenever the in-flight count is below the
concurrency limit and the task is not already in flight. -/
theorem C9_pause_blocks_admission :
    (∀ (s : System) (e : Ev), s.agent.is_processing_active = false →
        Ev.isSchedulerEvent e = true → e.enabled s = true →
        ((e.apply s).spawned ⊆ s.spawned ∧
         (∀ x, x ∈ queueIds s.agent → x ∈ queueIds (e.apply s).agent) ∧
         (∀ x, x ∈ (e.apply s).agent.in_progress_tasks →
            x ∈ s.agent.in_progress_tasks ∨ x ∈ s.spawned.map Task.id))) ∧
    (∀ (a : DevAgent) (t : Task), t ∈ a.task_queue →
        a.in_progress_tasks.length < a.max_concurrent_tasks →
        t.id ∉ a.in_progress_tasks →
        t ∈ (resume_processing a).2) := by
  constructor
  · intro s e hpa hse hen
    cases e with
    | receive t =>
        obtain ⟨hsp, hip, hq⟩ := handle_task_inactive (t := t) hpa
        refine ⟨?_, hq, ?_⟩
        · show s.spawned ++ (handle_task_from_pm s.agent t).2 ⊆ s.spawned
          rw [hsp, List.append_nil]
          exact fun x hx => hx
        · intro x hx
          have hx' : x ∈ (handle_task_from_pm s.agent t).1.in_progress_tasks := hx
          rw [hip] at hx'
          exact Or.inl hx'
    | start t =>
        by_cases hg : t.id ∈ s.agent.in_progress_tasks
        · simp only [Ev.apply]
          rw [if_pos hg]
          exact ⟨List.erase_subset _ _, fun x hx => hx, fun x hx => Or.inl hx⟩
        · simp only [Ev.apply]
          rw [if_neg hg]
          refine ⟨List.erase_subset _ _, ?_, ?_⟩
          · intro x hx
            show x ∈ List.map Task.id (startExec s.agent t).task_queue
            rw [startExec_queue]
            exact hx
          · intro x hx
            have hx' : x ∈ setAdd s.agent.in_progress_tasks t.id := by
              have h2 : x ∈ (startExec s.agent t).in_progress_tasks := hx
              unfold startExec at h2
              rw [if_neg hg] at h2
              exact h2
            rcases mem_setAdd_iff.mp hx' with h' | rfl
            · exact Or.inl h'
            · right
              have ht : t ∈ s.spawned := List.elem_iff.mp hen
              exact List.mem_map_of_mem Task.id ht
    | finish t o =>
        cases o with
        | normal llm wf =>
            obtain ⟨hsp, hip, _, hq⟩ := @check_unblocked_inactive
              { s.agent with
                  completed_tasks := setAdd s.agent.completed_tasks t.id
                  in_progress_tasks := setDiscard s.agent.in_progress_tasks t.id }
              t.id hpa
            refine ⟨?_, hq, ?_⟩
            · show s.spawned ++ (finishExec s.agent t (ExecOutcome.normal llm wf)).2
                ⊆ s.spawned
              have hsp' : (finishExec s.agent t (ExecOutcome.normal llm wf)).2 = [] := hsp
              rw [hsp', List.append_nil]
              exact fun x hx => hx
            · intro x hx
              have hx' : x ∈ setDiscard s.agent.in_progress_tasks t.id := by
                have h3 : x ∈ (_check_unblocked_tasks
                    { s.agent with
                        completed_tasks := setAdd s.agent.completed_tasks t.id
                        in_progress_tasks := setDiscard s.agent.in_progress_tasks t.id }
                    t.id).1.in_progress_tasks := hx
                rw [hip] at h3
                exact h3
              exact Or.inl (mem_setDiscard hx')
        | raised msg =>
            refine ⟨?_, fun x hx => hx, ?_⟩
            · show s.spawned ++ [] ⊆ s.spawned
              rw [List.append_nil]
              exact fun x hx => hx
            · intro x hx
              exact Or.inl (mem_setDiscard hx)
    | pause => exact ⟨fun x hx => hx, fun x hx => hx, fun x hx => Or.inl hx⟩
    | planComplete =>
        have heq : handle_plan_complete s.agent
            = ({ s.agent with is_plan_complete := true }, []) :=
          process_ready_inactive (a := { s.agent with is_plan_complete := true }) hpa
        refine ⟨?_, ?_, ?_⟩
        · show s.spawned ++ (handle_plan_complete s.agent).2 ⊆ s.spawned
          rw [heq, List.append_nil]
          exact fun x hx => hx
        · intro x hx
          have : (handle_plan_complete s.agent).1
              = { s.agent with is_plan_complete := true } := by rw [heq]
          show x ∈ queueIds (handle_plan_complete s.agent).1
          rw [this]
          exact hx
        · intro x hx
          have : (handle_plan_complete s.agent).1
              = { s.agent with is_plan_complete := true } := by rw [heq]
          rw [show ((Ev.planComplete).apply s).agent = (handle_plan_complete s.agent).1 from rfl,
            this] at hx
          exact Or.inl hx
    | resume => simp [Ev.isSchedulerEvent] at hse
    | forceComplete tid => simp [Ev.isSchedulerEvent] at hse
    | reset tid => simp [Ev.isSchedulerEvent] at hse
    | prioChange tid p => simp [Ev.isSchedulerEvent] at hse
    | emergencyStop => simp [Ev.isSchedulerEvent] at hse
  · intro a t hq hl hni
    have heq := process_ready_under (a := { a with is_processing_active := true }) rfl hl
    show t ∈ (_process_ready_tasks { a with is_processing_active := true }).2
    rw [heq]
    exact List.mem_filter.mpr ⟨hq, by simpa using hni⟩

/-- C1 (amended): whenever `execute_task` returns — regardless of the
returned task's terminal status, `FAILED` included, since the wrapper
never inspects it — the coordinator adds the id to the completed set and
runs the unblock cascade, so a dependent whose only outstanding
dependency was the finished task lands on the execution path (queued,
spawned or in flight).  Only when an exception escapes `execute_task`
does the coordinator skip the marking: then the completed set, the
waiting map and the spawn list are untouched. -/
theorem C1_unconditional_completion (a : DevAgent) (t : Task)
    (llm : LLMResult) (wf : Bool) (msg : String) :
    (t.id ∈ (finishExec a t (ExecOutcome.normal llm wf)).1.completed_tasks ∧
     (∀ did deps u, (did, deps) ∈ a.waiting_for_dependencies → t.id ∈ deps →
        deps.filter (fun d => d ≠ t.id) = [] →
        dictFind a.pending_tasks did = some u →
        Trich u.id (finishExec a t (ExecOutcome.normal llm wf)))) ∧
    ((finishExec a t (ExecOutcome.raised msg)).1.completed_tasks = a.completed_tasks ∧
     (finishExec a t (ExecOutcome.raised msg)).1.waiting_for_dependencies
       = a.waiting_for_dependencies ∧
     (finishExec a t (ExecOutcome.raised msg)).2 = []) := by
  refine ⟨⟨?_, ?_⟩, rfl, rfl, rfl⟩
  · have h1 : (finishExec a t (ExecOutcome.normal llm wf)).1.completed_tasks
        = setAdd a.completed_tasks t.id :=
      (check_unblocked_proj
        { a with
            completed_tasks := setAdd a.completed_tasks t.id
            in_progress_tasks := setDiscard a.in_progress_tasks t.id } t.id).2.1
    rw [h1]
    exact mem_setAdd_self _ _
  · intro did deps u hw hc hf hp
    exact check_unblocked_trich
      (a := { a with
          completed_tasks := setAdd a.completed_tasks t.id
          in_progress_tasks := setDiscard a.in_progress_tasks t.id })
      hw hc hf hp

theorem C1_witness :
    "A" ∈ (finishExec c1wAgent tA (ExecOutcome.normal (LLMResult.ok "") false)).1.completed_tasks ∧
    Trich "B" (finishExec c1wAgent tA (ExecOutcome.normal (LLMResult.ok "") false)) ∧
    (finishExec c1wAgent tA (ExecOutcome.raised "boom")).1.completed_tasks
      = c1wAgent.completed_tasks :=
  ⟨(C1_unconditional_completion c1wAgent tA (LLMResult.ok "") false "boom").1.1,
   (C1_unconditional_completion c1wAgent tA (LLMResult.ok "") false "boom").1.2
     "B" ["A"] tBdepA (by decide) (by decide) (by decide) (by decide),
   (C1_unconditional_completion c1wAgent tA (LLMResult.ok "") false "boom").2.1⟩

/-- C3 (amended): registering a task whose declared dependency list is
non-empty but entirely contained in the completed set leaves the task's
waiting entry equal to the full declared list (never cleared) while the
task simultaneously proceeds to the execution path — the id occupies two
scheduler places at once, so mutual exclusion holds for the other
registration branches but not for this one. -/
theorem C3_stale_waiting_entry (a : DevAgent) (t : Task)
    (hd : t.dependencies ≠ [])
    (hc : ∀ d ∈ t.dependencies, d ∈ a.completed_tasks) :
    dictFind (handle_task_from_pm a t).1.waiting_for_dependencies t.id
      = some t.dependencies ∧
    Trich t.id (handle_task_from_pm a t) := by
  have hunmet : t.dependencies.filter (fun d => d ∉ a.completed_tasks) = [] := by
    rw [List.filter_eq_nil_iff]
    intro d hdmem
    simp [hc d hdmem]
  unfold handle_task_from_pm
  dsimp only
  rw [if_pos hd]
  unfold _evaluate_task_readiness
  dsimp only
  rw [if_neg hd, if_pos hunmet]
  constructor
  · have hwa := (add_proj
      { a with
          pending_tasks := dictInsert a.pending_tasks t.id t
          dependency_graph := dictInsert a.dependency_graph t.id t.dependencies
          waiting_for_dependencies :=
            dictInsert a.waiting_for_dependencies t.id t.dependencies } t).2.2.2.1
    rw [hwa]
    exact dictFind_dictInsert_self _ _ _
  · exact add_trich_self _ t

theorem C3_witness :
    dictFind (handle_task_from_pm c3wAgent tBdepA).1.waiting_for_dependencies "B"
      = some ["A"] ∧
    Trich "B" (handle_task_from_pm c3wAgent tBdepA) :=
  ⟨(C3_stale_waiting_entry c3wAgent tBdepA (by decide) (by decide)).1,
   (C3_stale_waiting_entry c3wAgent tBdepA (by decide) (by decide)).2⟩

theorem C9_witness :
    (((Ev.receive tT).apply c9Sys).spawned ⊆ c9Sys.spawned ∧
     (∀ x, x ∈ queueIds c9Sys.agent → x ∈ queueIds ((Ev.receive tT).apply c9Sys).agent) ∧
     (∀ x, x ∈ ((Ev.receive tT).apply c9Sys).agent.in_progress_tasks →
        x ∈ c9Sys.agent.in_progress_tasks ∨ x ∈ c9Sys.spawned.map Task.id)) ∧
    tE ∈ (resume_processing c9Sys.agent).2 :=
  ⟨C9_pause_blocks_admission.1 c9Sys (Ev.receive tT) (by decide) (by decide) (by decide),
   C9_pause_blocks_admission.2 c9Sys.agent tE (by decide) (by decide) (by decide)⟩

/-- C8 (amended): `force_complete_task` on a known id reports `True`,
adds the id to the completed set, removes it from the in-flight set and
the ready queue, leaves the stored task object (its `status` field
included) untouched, and runs the unblock cascade: every task whose
recorded waiting set was exactly this id is put on the execution path.
The two well-formedness hypotheses say the pending table keys tasks by
their own id and that no waiting entry for the id records a
self-dependency. -/
theorem C8_force_complete_effects (a : DevAgent) (tid : String) (t : Task)
    (hk : ∀ p ∈ a.pending_tasks, Task.id p.2 = p.1)
    (hsd : ∀ p ∈ a.waiting_for_dependencies, p.1 = tid → tid ∉ p.2)
    (hp : dictFind a.pending_tasks tid = some t) :
    (force_complete_task a tid).2 = true ∧
    tid ∈ (force_complete_task a tid).1.1.completed_tasks ∧
    tid ∉ (force_complete_task a tid).1.1.in_progress_tasks ∧
    tid ∉ queueIds (force_complete_task a tid).1.1 ∧
    dictFind (force_complete_task a tid).1.1.pending_tasks tid = some t ∧
    (∀ did deps u, (did, deps) ∈ a.waiting_for_dependencies → tid ∈ deps →
       deps.filter (fun d => d ≠ tid) = [] →
       dictFind a.pending_tasks did = some u →
       Trich u.id (force_complete_task a tid).1) := by
  have hsome : (dictFind a.pending_tasks tid).isSome = true := by rw [hp]; rfl
  unfold force_complete_task
  rw [if_pos hsome]
  dsimp only
  refine ⟨rfl, ?_, ?_, ?_, ?_, ?_⟩
  · have h1 := (check_unblocked_proj
      { a with
          completed_tasks := setAdd a.completed_tasks tid
          in_progress_tasks := setDiscard a.in_progress_tasks tid
          task_queue := a.task_queue.filter (fun u => u.id ≠ tid) } tid).2.1
    rw [h1]
    exact mem_setAdd_self _ _
  · have h1 := (check_unblocked_proj
      { a with
          completed_tasks := setAdd a.completed_tasks tid
          in_progress_tasks := setDiscard a.in_progress_tasks tid
          task_queue := a.task_queue.filter (fun u => u.id ≠ tid) } tid).2.2.1
    rw [h1]
    exact not_mem_setDiscard _ _
  · have hl : ∀ u ∈ (collectUnblocked tid a.pending_tasks a.waiting_for_dependencies).2,
        Task.id u ≠ tid := by
      intro u hu
      obtain ⟨did, deps, hmem, hcid, hfind⟩ := collect_unblocked_sub hu
      have hid : Task.id u = did := hk (did, u) (dictFind_mem hfind)
      rw [hid]
      intro hdid
      exact hsd (did, deps) hmem hdid (hdid ▸ hcid)
    have hq : tid ∉ queueIds
        { a with
            completed_tasks := setAdd a.completed_tasks tid
            in_progress_tasks := setDiscard a.in_progress_tasks tid
            task_queue := a.task_queue.filter (fun u => u.id ≠ tid) } := by
      simp [queueIds, List.mem_filter]
    exact foldl_addStep_not_mem_queue _ _ hq hl
  · have h1 := (check_unblocked_proj
      { a with
          completed_tasks := setAdd a.completed_tasks tid
          in_progress_tasks := setDiscard a.in_progress_tasks tid
          task_queue := a.task_queue.filter (fun u => u.id ≠ tid) } tid).1
    rw [h1]
    exact hp
  · intro did deps u hw hc hf hpd
    exact check_unblocked_trich
      (a := { a with
          completed_tasks := setAdd a.completed_tasks tid
          in_progress_tasks := setDiscard a.in_progress_tasks tid
          task_queue := a.task_queue.filter (fun u => u.id ≠ tid) })
      hw hc hf hpd

theorem C8_witness :
    (force_complete_task c8wAgent "A").2 = true ∧
    "A" ∈ (force_complete_task c8wAgent "A").1.1.completed_tasks ∧
    Trich "B" (force_complete_task c8wAgent "A").1 := by
  have h := C8_force_complete_effects c8wAgent "A" tA (by decide) (by decide) (by decide)
  exact ⟨h.1, h.2.1, h.2.2.2.2.2 "B" ["A"] tBdepA (by decide) (by decide) (by decide) (by decide)⟩

end DevSched
